import Mathlib

/-!
Shallow embedding of the timeline-construction core of `video_processing.py`
(class `VideoProcessor`).  Times and durations are rationals; the process-wide
pseudo-random generator is modelled as a stream `g : ℕ → ℚ` of unit draws
(`random.random()` values), threaded through the code by an explicit index,
exactly in the order the Python code consumes them.  `random.uniform a b` is
`a + (b - a) * u` with `u` the next unit draw, which is how CPython implements
it.
-/

namespace MovieCap

/-- The effect_probs table of the settings structure. -/
structure EffectProbs where
  slowmo : ℚ
  freeze : ℚ
  normal : ℚ
deriving DecidableEq, Repr

/-- The segment_dist table of the settings structure. -/
structure SegmentDist where
  beginning : ℚ
  middle : ℚ
  end_ : ℚ
deriving DecidableEq, Repr

/-- The transition table of the settings structure. -/
structure TransitionSettings where
  fade_probability : ℚ
  fade_duration : ℚ
deriving DecidableEq, Repr

/-- The repeat table of the settings structure. -/
structure RepeatSettings where
  probability : ℚ
  max_repeats : ℕ
deriving DecidableEq, Repr

/-- The freeze table of the settings structure. -/
structure FreezeSettings where
  zoom_probability : ℚ
deriving DecidableEq, Repr

/-- The flat settings structure handed to `process_video`; only the fields
the algorithmic core reads. -/
structure Settings where
  effect_probs : EffectProbs
  segment_dist : SegmentDist
  slowmo_speed : ℚ
  transition : TransitionSettings
  repeat_ : RepeatSettings
  freeze : FreezeSettings
  excluded_timestamps : List (ℚ × ℚ × String)
  include_timestamps : List (ℚ × ℚ × String)
deriving DecidableEq, Repr

/-- The three effect kinds drawn by the weighted choice among slowmo, freeze and normal. -/
inductive EffectType where
  | slowmo
  | freeze
  | normal
deriving DecidableEq, Repr

/-- A produced clip descriptor: source start, source span, chosen effect,
whether the freeze-frame zoom fired, whether the fade transition fired. -/
structure Clip where
  start : ℚ
  srcDuration : ℚ
  effect : EffectType
  zoomed : Bool
  faded : Bool
deriving DecidableEq, Repr

/-- The moviepy clip duration that `process_video` sums and trims by:
`vfx.speedx(slowmo_speed)` divides the duration by the speed factor,
the freeze branch `set_duration(duration)` and the normal branch keep it. -/
def Clip.duration (c : Clip) (s : Settings) : ℚ :=
  match c.effect with
  | .slowmo => c.srcDuration / s.slowmo_speed
  | .freeze => c.srcDuration
  | .normal => c.srcDuration

/-- Python `int(q)` / `math.floor` for the nonnegative quantities the code feeds it. -/
def floorNat (q : ℚ) : ℕ := Int.toNat ⌊q⌋

/-- Model of numpy.isclose with its default tolerances rtol = 1e-5 and
atol = 1e-8, accepting iff `|a - b| <= atol + rtol * |b|`. -/
def npIsClose (a b : ℚ) : Bool := decide (|a - b| ≤ 1 / 100000000 + (1 / 100000) * |b|)

/-- Model of VideoProcessor.validate_settings (lines 49-57): only the two
probability sums are checked, via np.isclose against 1.0. -/
def validate_settings (s : Settings) : Bool :=
  npIsClose (s.effect_probs.slowmo + s.effect_probs.freeze + s.effect_probs.normal) 1 &&
  npIsClose (s.segment_dist.beginning + s.segment_dist.middle + s.segment_dist.end_) 1

/-- Model of VideoProcessor.get_end_segment (lines 20-32). -/
def get_end_segment (duration : ℚ) : ℚ × ℚ × ℚ :=
  let minutes := duration / 60
  let main_start :=
    if minutes ≤ 90 then duration - 300
    else if minutes ≤ 120 then duration - 480
    else duration - 600
  (main_start, duration - 10, duration - 1/2)

/-- Model of VideoProcessor.is_timestamp_excluded (lines 87-89): membership
in an excluded range is inclusive of both endpoints. -/
def is_timestamp_excluded (t : ℚ) (excluded : List (ℚ × ℚ × String)) : Bool :=
  excluded.any fun r => decide (r.1 ≤ t ∧ t ≤ r.2.1)

/-- The probe points `np.arange(start_time, start_time + duration, 0.5)`
(line 96): `start + k/2` for `0 ≤ k < ⌈duration / 0.5⌉`. -/
def probeTimes (start dur : ℚ) : List ℚ :=
  (List.range (Int.toNat ⌈2 * dur⌉)).map fun k => start + (k : ℚ) * (1/2)

/-- Model of random.choices over the three effect kinds with the given
weights: one unit draw `u`, scaled by the weight total and located in the
cumulative weights. -/
def chooseEffect (w : EffectProbs) (u : ℚ) : EffectType :=
  let x := u * (w.slowmo + w.freeze + w.normal)
  if x < w.slowmo then .slowmo
  else if x < w.slowmo + w.freeze then .freeze
  else .normal

/-- The effect/transition assignment shared verbatim by
`create_random_effect_clip` (lines 101-117) and
`create_included_segment_clips` (lines 176-191): one draw for the weighted
effect choice, one extra draw inside the freeze branch
(`random.random() < zoom_probability` in `create_freeze_frame_with_effects`),
and one draw for the fade transition.  Returns the clip and the next draw index. -/
def assignEffect (g : ℕ → ℚ) (s : Settings) (start dur : ℚ) (i : ℕ) : Clip × ℕ :=
  match chooseEffect s.effect_probs (g i) with
  | .slowmo =>
      ⟨⟨start, dur, .slowmo, false, g (i+1) < s.transition.fade_probability⟩, i + 2⟩
  | .freeze =>
      ⟨⟨start, dur, .freeze, g (i+1) < s.freeze.zoom_probability,
        g (i+2) < s.transition.fade_probability⟩, i + 3⟩
  | .normal =>
      ⟨⟨start, dur, .normal, false, g (i+1) < s.transition.fade_probability⟩, i + 2⟩

/-- Model of VideoProcessor.create_random_effect_clip (lines 91-118) in an
uncancelled run: none iff some half-second probe point is excluded, otherwise
the effect/fade assignment on the whole candidate window. -/
def create_random_effect_clip (g : ℕ → ℚ) (s : Settings) (start dur : ℚ) (i : ℕ) :
    Option Clip × ℕ :=
  if (probeTimes start dur).any (fun t => is_timestamp_excluded t s.excluded_timestamps) then
    (none, i)
  else
    let p := assignEffect g s start dur i
    (some p.1, p.2)

/-- The repeat block of `create_section_clips` (lines 143-148): `n` further
calls to `create_random_effect_clip` on the same window, keeping the non-`None`
results. -/
def repeatClips (g : ℕ → ℚ) (s : Settings) (start dur : ℚ) : ℕ → ℕ → List Clip × ℕ
  | 0, i => ([], i)
  | n+1, i =>
      let p := create_random_effect_clip g s start dur i
      let rest := repeatClips g s start dur n p.2
      (((p.1.map fun c => [c]).getD []) ++ rest.1, rest.2)

/-- Model of random.randint over 1..m from one unit draw. -/
def randint1 (m : ℕ) (u : ℚ) : ℕ := 1 + min (m - 1) (Int.toNat ⌊u * (m : ℚ)⌋)

/-- One loop body of `create_section_clips` after the duration draw
(lines 136-148): the candidate clip, then — only if it was accepted — one
draw for the repeat coin, one for the repeat count, and the repeats. -/
def candidateClips (g : ℕ → ℚ) (s : Settings) (start dur : ℚ) (i : ℕ) : List Clip × ℕ :=
  let p := create_random_effect_clip g s start dur i
  match p.1 with
  | none => ([], p.2)
  | some c =>
      if g p.2 < s.repeat_.probability then
        let n := randint1 s.repeat_.max_repeats (g (p.2 + 1))
        let r := repeatClips g s start dur n (p.2 + 2)
        (c :: r.1, r.2)
      else ([c], p.2 + 1)

/-- Result of the sampling loop: the clips, the next draw index, and whether
the loop reached one of its exit conditions (as opposed to running out of
modelling fuel). -/
structure LoopResult where
  clips : List Clip
  nextIdx : ℕ
  completed : Bool
deriving DecidableEq, Repr

/-- The `while current_time < section_end` loop of `create_section_clips`
(lines 127-153) in an uncancelled run, fuelled: duration draw
`uniform(2, min(4, remaining))`, candidate + repeats, then the cadence advance
`current_time += step * uniform(0.8, 1.2)` on every iteration. -/
def sectionLoop (g : ℕ → ℚ) (s : Settings) (sectionEnd step : ℚ) :
    ℕ → ℚ → ℕ → LoopResult
  | 0, _, i => ⟨[], i, false⟩
  | fuel+1, t, i =>
      if t < sectionEnd then
        if sectionEnd - t < 2 then ⟨[], i, true⟩
        else
          let maxd := min 4 (sectionEnd - t)
          let dur := 2 + (maxd - 2) * g i
          let p := candidateClips g s t dur (i + 1)
          let u := 4/5 + (6/5 - 4/5) * g p.2
          let r := sectionLoop g s sectionEnd step fuel (t + step * u) (p.2 + 1)
          ⟨p.1 ++ r.clips, r.nextIdx, r.completed⟩
      else ⟨[], i, true⟩

/-- Model of VideoProcessor.create_section_clips (lines 120-155):
`actual_segments = max 1 (min num_segments (floor (section_duration / 2)))`,
`step = section_duration / actual_segments`, then the sampling loop from
`section_start`. -/
def create_section_clips (g : ℕ → ℚ) (s : Settings) (sectionStart sectionEnd : ℚ)
    (numSegments : ℕ) (fuel i : ℕ) : LoopResult :=
  let sd := sectionEnd - sectionStart
  let actual := max 1 (min numSegments (floorNat (sd / 2)))
  let step := sd / (actual : ℚ)
  sectionLoop g s sectionEnd step fuel sectionStart i

/-- Position normalisation at the top of the loop of
`create_included_segment_clips` (lines 165-166): a tag outside
`{beginning, middle, end}` is silently replaced by `end`. -/
def normalizePos (p : String) : String :=
  if p = "beginning" ∨ p = "middle" ∨ p = "end" then p else "end"

/-- Model of VideoProcessor.create_included_segment_clips (lines 157-198) in
an uncancelled run: ranges whose span is nonpositive are silently skipped,
every surviving range gets exactly one clip via the inline effect/fade
assignment — no exclusion check and no repeat block. -/
def create_included_segment_clips (g : ℕ → ℚ) (s : Settings) :
    List (ℚ × ℚ × String) → ℕ → List (Clip × String) × ℕ
  | [], i => ([], i)
  | (st, en, pos) :: rest, i =>
      let pos' := normalizePos pos
      if en - st ≤ 0 then create_included_segment_clips g s rest i
      else
        let p := assignEffect g s st (en - st) i
        let r := create_included_segment_clips g s rest p.2
        ((p.1, pos') :: r.1, r.2)

/-- Sum of moviepy durations of a clip list (what `process_video` adds up). -/
def sumDur (s : Settings) (l : List Clip) : ℚ := (l.map fun c => c.duration s).sum

/-- Sum of source spans of a clip list. -/
def sumSrc (l : List Clip) : ℚ := (l.map fun c => c.srcDuration).sum

/-- The trimming loop of `process_video` (lines 317-319), phrased over the
reversed main sequence so that `all_segments.pop()` is a head operation:
`while trim_duration > 0 and all_segments: trim_duration -= pop().duration`. -/
def trimLoopRev (s : Settings) : List Clip → ℚ → List Clip
  | [], _ => []
  | c :: rest, excess =>
      if 0 < excess then trimLoopRev s rest (excess - c.duration s) else c :: rest

/-- The duration-fitting step of `process_video` (lines 304-322): the excess is
`main_clips_duration + included_clips_duration - target_duration` where
`included_clips_duration` sums ALL included clips (line 312), the trimming pops
from the tail of `all_segments`, and only the `end`-tagged included clips are
appended afterwards (lines 308, 322). -/
def fitTimeline (s : Settings) (main : List Clip) (included : List (Clip × String))
    (target : ℚ) : List Clip :=
  let includedEnd := (included.filter fun p => p.2 == "end").map fun p => p.1
  let mainDur := sumDur s main
  let inclDur := sumDur s (included.map fun p => p.1)
  let trimmed :=
    if mainDur + inclDur > target then
      (trimLoopRev s main.reverse (mainDur + inclDur - target)).reverse
    else main
  trimmed ++ includedEnd

/-- The final hard clamp of `process_video` (lines 334-335):
`if final_video.duration > target_duration: final_video.subclip(0, target_duration)`. -/
def clampDuration (d target : ℚ) : ℚ := if d > target then target else d

/-- The observable step sequence at the head of `process_video`
(lines 247-256): the video and audio files are opened and the video is probed
for its resolution BEFORE `validate_settings` runs. -/
inductive PEvent where
  | openVideo
  | openAudio
  | analyzeQuality
  | configError
  | createSegments
deriving DecidableEq, Repr

/-- Straight-line model of `process_video` lines 247-279: open media, analyze
quality, then validate (raising the configuration error) or proceed to
segment creation. -/
def processTrace (s : Settings) : List PEvent :=
  [.openVideo, .openAudio, .analyzeQuality] ++
    (if validate_settings s then [.createSegments] else [.configError])

/-- The Beginning-zone sampling call of `process_video` (lines 264, 270,
275, 282): zone from 0 to `0.33 * video_duration`, with the segment budget
computed on line 275. -/
def beginningClips (g : ℕ → ℚ) (s : Settings) (videoDuration targetDuration : ℚ)
    (fuel i : ℕ) : LoopResult :=
  create_section_clips g s 0 (33/100 * videoDuration)
    (floorNat (targetDuration * s.segment_dist.beginning / 3)) fuel i

/-- The Middle-zone sampling call of `process_video` (lines 265-266, 271,
276, 286). -/
def middleClips (g : ℕ → ℚ) (s : Settings) (videoDuration targetDuration : ℚ)
    (fuel i : ℕ) : LoopResult :=
  create_section_clips g s (33/100 * videoDuration) (66/100 * videoDuration)
    (floorNat (targetDuration * s.segment_dist.middle / 3)) fuel i

/-- The End-main-zone sampling call of `process_video` (lines 267, 272, 277,
290): zone `[main_start, final_start)` from `get_end_segment`. -/
def endMainClips (g : ℕ → ℚ) (s : Settings) (videoDuration targetDuration : ℚ)
    (fuel i : ℕ) : LoopResult :=
  create_section_clips g s (get_end_segment videoDuration).1
    (get_end_segment videoDuration).2.1
    (floorNat (targetDuration * s.segment_dist.end_ / 3)) fuel i

/-! ## Fixture definitions for witnesses, counterexamples and claim-side variants -/

/-- The `end`-tagged included clips that `process_video` appends (lines 308, 322). -/
def endIncluded (included : List (Clip × String)) : List Clip :=
  (included.filter fun p => p.2 == "end").map fun p => p.1

/-- The all-zeroes draw stream. -/
def zeroDraws : ℕ → ℚ := fun _ => 0

/-- A valid baseline configuration: all effect weight on `slowmo`, the whole
segment distribution on the end zone, no fades, no repeats, no ranges. -/
def baseSettings : Settings :=
  { effect_probs := ⟨1, 0, 0⟩
    segment_dist := ⟨0, 0, 1⟩
    slowmo_speed := 1/2
    transition := ⟨0, 1⟩
    repeat_ := ⟨0, 1⟩
    freeze := ⟨0⟩
    excluded_timestamps := []
    include_timestamps := [] }

/-- A pass-through clip descriptor of the given start and source span. -/
def normalClip (start dur : ℚ) : Clip := ⟨start, dur, .normal, false, false⟩

/-- The duration-fitting step as claim C1 words it: the trimming excess counts
only the `end`-tagged included descriptors.  Claim-side definition, for
comparison with `fitTimeline`, which follows the source (line 312 sums ALL
included clips). -/
def fitTimelineClaimC1 (s : Settings) (main : List Clip)
    (included : List (Clip × String)) (target : ℚ) : List Clip :=
  let includedEnd := endIncluded included
  let mainDur := sumDur s main
  let inclEndDur := sumDur s includedEnd
  let trimmed :=
    if mainDur + inclEndDur > target then
      (trimLoopRev s main.reverse (mainDur + inclEndDur - target)).reverse
    else main
  trimmed ++ includedEnd

/-- Settings whose effect probabilities sum to 1.005 — within the tolerance of
0.01 that the claim states — and whose segment distribution sums to 1. -/
def closeButRejectedSettings : Settings :=
  { baseSettings with effect_probs := ⟨67/200, 67/200, 67/200⟩ }

/-- A configuration in which the repeat policy always fires (probability 1). -/
def alwaysRepeatSettings : Settings :=
  { baseSettings with
    effect_probs := ⟨0, 0, 1⟩
    repeat_ := ⟨1, 1⟩
    include_timestamps := [(0, 4, "end")] }

/-- Valid probability sums with a malformed included range (start 5 ≥ end 3). -/
def malformedRangeSettings : Settings :=
  { baseSettings with include_timestamps := [(5, 3, "beginning")] }

/-! ## Helper lemmas about the trimming loop -/

lemma sumDur_nil (s : Settings) : sumDur s [] = 0 := rfl

lemma sumDur_cons (s : Settings) (c : Clip) (l : List Clip) :
    sumDur s (c :: l) = c.duration s + sumDur s l := by
  simp [sumDur]

lemma sumDur_append (s : Settings) (l₁ l₂ : List Clip) :
    sumDur s (l₁ ++ l₂) = sumDur s l₁ + sumDur s l₂ := by
  simp [sumDur]

lemma sumDur_reverse (s : Settings) (l : List Clip) :
    sumDur s l.reverse = sumDur s l := by
  rw [sumDur, sumDur, List.map_reverse, List.sum_reverse]

lemma sumDur_take_add_sumDur_drop (s : Settings) (l : List Clip) (n : ℕ) :
    sumDur s (l.take n) + sumDur s (l.drop n) = sumDur s l := by
  simp only [sumDur, List.map_take, List.map_drop, List.sum_take_add_sum_drop]

/-- The trimming loop, on the reversed main list, drops an initial block `p`;
it drops enough to cover the excess unless it empties the list, and it never
drops more than needed. -/
lemma trimLoopRev_spec (s : Settings) :
    ∀ (L : List Clip) (excess : ℚ),
      ∃ p, p ≤ L.length ∧ trimLoopRev s L excess = L.drop p ∧
        (excess ≤ sumDur s (L.take p) ∨ p = L.length) ∧
        ∀ q, q < p → sumDur s (L.take q) < excess := by
  intro L
  induction L with
  | nil =>
      intro excess
      exact ⟨0, by simp, by simp [trimLoopRev], Or.inr rfl, by omega⟩
  | cons c rest ih =>
      intro excess
      by_cases h : 0 < excess
      · obtain ⟨p, hp, heq, hstop, hmin⟩ := ih (excess - c.duration s)
        refine ⟨p + 1, by simpa using hp, ?_, ?_, ?_⟩
        · simpa [trimLoopRev, h] using heq
        · rcases hstop with h1 | h1
          · left
            rw [List.take_succ_cons, sumDur_cons]
            linarith
          · right
            simp [h1]
        · intro q hq
          match q with
          | 0 => simpa [sumDur_nil] using h
          | q' + 1 =>
              have := hmin q' (by omega)
              rw [List.take_succ_cons, sumDur_cons]
              linarith
      · refine ⟨0, by simp, by simp [trimLoopRev, h], Or.inl ?_, by omega⟩
        simp only [List.take_zero, sumDur_nil]
        linarith

/-- Structure of the fitting step: the final timeline is a prefix of the
assembled main sequence followed by all `end`-tagged included clips, the kept
prefix is maximal for the excess `mainDur + (sum over ALL included) - target`,
and trimming stops as soon as the dropped tail covers that excess (or the main
sequence is exhausted). -/
lemma fitTimeline_eq_take (s : Settings) (main : List Clip)
    (included : List (Clip × String)) (target : ℚ) :
    ∃ D, D ≤ main.length ∧
      fitTimeline s main included target = main.take D ++ endIncluded included ∧
      (sumDur s main + sumDur s (included.map fun p => p.1) - target ≤
          sumDur s (main.drop D) ∨ D = 0) ∧
      ∀ j, D < j → j ≤ main.length →
        sumDur s (main.drop j) <
          sumDur s main + sumDur s (included.map fun p => p.1) - target := by
  set excess := sumDur s main + sumDur s (included.map fun p => p.1) - target with hex
  by_cases h : sumDur s main + sumDur s (included.map fun p => p.1) > target
  · obtain ⟨p, hp, heq, hstop, hmin⟩ := trimLoopRev_spec s main.reverse excess
    refine ⟨main.length - p, by omega, ?_, ?_, ?_⟩
    · show (if _ > target then (trimLoopRev s main.reverse _).reverse else main) ++ _ = _
      rw [if_pos h, ← hex, heq, List.drop_reverse, List.reverse_reverse]
      rfl
    · rcases hstop with h1 | h1
      · left
        rw [List.take_reverse, sumDur_reverse] at h1
        simpa [List.length_reverse] using h1
      · right
        simp only [List.length_reverse] at h1
        omega
    · intro j hj hjle
      have hq : main.length - j < p := by
        simp only [List.length_reverse] at hp
        omega
      have := hmin (main.length - j) hq
      rw [List.take_reverse, sumDur_reverse] at this
      have hjj : main.length - (main.length - j) = j := by omega
      rwa [hjj] at this
  · refine ⟨main.length, le_refl _, ?_, ?_, ?_⟩
    · show (if _ > target then (trimLoopRev s main.reverse _).reverse else main) ++ _ = _
      rw [if_neg h, List.take_length]
      rfl
    · left
      rw [List.drop_length, sumDur_nil]
      push_neg at h
      linarith
    · intro j hj hjle
      omega

/-- Filtering a clip list can only shrink a sum of nonnegative durations. -/
lemma sumDur_endIncluded_le (s : Settings) (included : List (Clip × String))
    (h : ∀ p ∈ included, 0 ≤ p.1.duration s) :
    sumDur s (endIncluded included) ≤ sumDur s (included.map fun p => p.1) := by
  induction included with
  | nil => simp [endIncluded, sumDur_nil]
  | cons hd tl ih =>
      have hhd : 0 ≤ hd.1.duration s := h hd (by simp)
      have htl := ih fun p hp => h p (by simp [hp])
      by_cases hcase : hd.2 == "end"
      · simpa [endIncluded, List.filter_cons, hcase, sumDur_cons] using htl
      · simp only [endIncluded, List.filter_cons, hcase, if_neg] at htl ⊢
        rw [List.map_cons, sumDur_cons]
        simp only [Bool.false_eq_true, if_false]
        linarith

/-! ## Helper lemmas about the sampling loop -/

lemma assignEffect_start (g : ℕ → ℚ) (s : Settings) (start dur : ℚ) (i : ℕ) :
    (assignEffect g s start dur i).1.start = start ∧
    (assignEffect g s start dur i).1.srcDuration = dur := by
  unfold assignEffect
  cases chooseEffect s.effect_probs (g i) <;> exact ⟨rfl, rfl⟩

lemma create_random_effect_clip_cases (g : ℕ → ℚ) (s : Settings) (start dur : ℚ) (i : ℕ) :
    create_random_effect_clip g s start dur i = (none, i) ∨
    create_random_effect_clip g s start dur i =
      (some (assignEffect g s start dur i).1, (assignEffect g s start dur i).2) := by
  unfold create_random_effect_clip
  split
  · exact Or.inl rfl
  · exact Or.inr rfl

lemma create_random_effect_clip_some (g : ℕ → ℚ) (s : Settings) (start dur : ℚ) (i : ℕ)
    (c : Clip) (h : (create_random_effect_clip g s start dur i).1 = some c) :
    c.start = start ∧ c.srcDuration = dur := by
  rcases create_random_effect_clip_cases g s start dur i with hc | hc
  · rw [hc] at h
    simp at h
  · rw [hc] at h
    simp only [Option.some.injEq] at h
    rw [← h]
    exact assignEffect_start g s start dur i

lemma repeatClips_mem (g : ℕ → ℚ) (s : Settings) (start dur : ℚ) :
    ∀ (n i : ℕ) (c : Clip), c ∈ (repeatClips g s start dur n i).1 →
      c.start = start ∧ c.srcDuration = dur := by
  intro n
  induction n with
  | zero =>
      intro i c hc
      have h0 : repeatClips g s start dur 0 i = ([], i) := rfl
      rw [h0] at hc
      simp at hc
  | succ n ih =>
      intro i c hc
      rw [repeatClips] at hc
      rcases List.mem_append.mp hc with hm | hm
      · rcases ho : (create_random_effect_clip g s start dur i).1 with _ | c'
        · rw [ho] at hm
          simp at hm
        · rw [ho] at hm
          simp at hm
          subst hm
          exact create_random_effect_clip_some g s start dur i _ ho
      · exact ih _ c hm

lemma candidateClips_mem (g : ℕ → ℚ) (s : Settings) (start dur : ℚ) (i : ℕ) (c : Clip)
    (hc : c ∈ (candidateClips g s start dur i).1) :
    c.start = start ∧ c.srcDuration = dur := by
  unfold candidateClips at hc
  dsimp only at hc
  rcases ho : (create_random_effect_clip g s start dur i).1 with _ | c'
  · rw [ho] at hc
    simp at hc
  · rw [ho] at hc
    have hc' := create_random_effect_clip_some g s start dur i c' ho
    dsimp only at hc
    split at hc
    · rcases List.mem_cons.mp hc with hm | hm
      · rw [hm]; exact hc'
      · exact repeatClips_mem g s start dur _ _ c hm
    · rcases List.mem_singleton.mp hc with hm
      rw [hm]; exact hc'

/-- Every clip emitted by the sampling loop starts at or after the current
time, starts before the zone end, spans at least 2 seconds, and ends at or
before the zone end. -/
lemma sectionLoop_mem (g : ℕ → ℚ) (s : Settings) (e step : ℚ)
    (hg : ∀ k, 0 ≤ g k ∧ g k ≤ 1) (hstep : 0 ≤ step) :
    ∀ (fuel : ℕ) (t : ℚ) (i : ℕ) (c : Clip),
      c ∈ (sectionLoop g s e step fuel t i).clips →
      t ≤ c.start ∧ c.start < e ∧ 2 ≤ c.srcDuration ∧ c.start + c.srcDuration ≤ e := by
  intro fuel
  induction fuel with
  | zero =>
      intro t i c hc
      simp [sectionLoop] at hc
  | succ fuel ih =>
      intro t i c hc
      rw [sectionLoop] at hc
      by_cases h1 : t < e
      · rw [if_pos h1] at hc
        by_cases h2 : e - t < 2
        · rw [if_pos h2] at hc
          simp at hc
        · rw [if_neg h2] at hc
          dsimp only at hc
          rcases List.mem_append.mp hc with hm | hm
          · obtain ⟨hcs, hcd⟩ := candidateClips_mem g s t _ _ c hm
            have hginn := hg i
            have hmin2 : (2:ℚ) ≤ min 4 (e - t) := le_min (by norm_num) (by linarith)
            have hminle : min 4 (e - t) ≤ e - t := min_le_right _ _
            have hdurlo : (2:ℚ) ≤ 2 + (min 4 (e - t) - 2) * g i := by nlinarith
            have hdurhi : 2 + (min 4 (e - t) - 2) * g i ≤ min 4 (e - t) := by nlinarith
            refine ⟨le_of_eq hcs.symm, by rw [hcs]; exact h1, ?_, ?_⟩
            · rw [hcd]; exact hdurlo
            · rw [hcs, hcd]; linarith
          · have hrec := ih _ _ c hm
            have hgu := hg (candidateClips g s t (2 + (min 4 (e - t) - 2) * g i) (i + 1)).2
            have hu : 0 ≤ step * (4/5 + (6/5 - 4/5) * g (candidateClips g s t
                (2 + (min 4 (e - t) - 2) * g i) (i + 1)).2) := by nlinarith
            exact ⟨by linarith [hrec.1], hrec.2.1, hrec.2.2.1, hrec.2.2.2⟩
      · rw [if_neg h1] at hc
        simp at hc

/-- With nonnegative unit draws and a nonnegative step, the sampling loop
reaches an exit condition within `k + 1` iterations once
`zoneEnd - currentTime ≤ 0.8 * step * k`. -/
lemma sectionLoop_completed (g : ℕ → ℚ) (s : Settings) (e step : ℚ)
    (hg : ∀ k, 0 ≤ g k) (hstep : 0 ≤ step) :
    ∀ (k : ℕ) (t : ℚ) (i : ℕ), e - t ≤ 4/5 * step * k →
      (sectionLoop g s e step (k+1) t i).completed = true := by
  intro k
  induction k with
  | zero =>
      intro t i hk
      rw [sectionLoop]
      by_cases h1 : t < e
      · rw [if_pos h1]
        have h2 : e - t < 2 := by
          push_cast at hk
          linarith
        rw [if_pos h2]
      · rw [if_neg h1]
  | succ k ih =>
      intro t i hk
      rw [sectionLoop]
      by_cases h1 : t < e
      · rw [if_pos h1]
        by_cases h2 : e - t < 2
        · rw [if_pos h2]
        · rw [if_neg h2]
          dsimp only
          apply ih
          have hgu := hg (candidateClips g s t (2 + (min 4 (e - t) - 2) * g i) (i + 1)).2
          have hstepu : 4/5 * step ≤ step * (4/5 + (6/5 - 4/5) * g (candidateClips g s t
              (2 + (min 4 (e - t) - 2) * g i) (i + 1)).2) := by nlinarith
          push_cast at hk ⊢
          linarith
      · rw [if_neg h1]

/-! ## Helper lemmas comparing source spans and moviepy durations -/

lemma duration_nonneg (s : Settings) (c : Clip) (h0 : 0 ≤ c.srcDuration)
    (hs1 : 0 < s.slowmo_speed) : 0 ≤ c.duration s := by
  unfold Clip.duration
  cases c.effect
  · exact div_nonneg h0 (le_of_lt hs1)
  · exact h0
  · exact h0

lemma srcDuration_le_duration (s : Settings) (c : Clip) (h0 : 0 ≤ c.srcDuration)
    (hs1 : 0 < s.slowmo_speed) (hs2 : s.slowmo_speed ≤ 1) :
    c.srcDuration ≤ c.duration s := by
  unfold Clip.duration
  cases c.effect
  · rw [le_div_iff₀ hs1]
    nlinarith
  · exact le_refl _
  · exact le_refl _

lemma sumSrc_le_sumDur (s : Settings) (l : List Clip)
    (h : ∀ c ∈ l, 0 ≤ c.srcDuration)
    (hs1 : 0 < s.slowmo_speed) (hs2 : s.slowmo_speed ≤ 1) :
    sumSrc l ≤ sumDur s l := by
  induction l with
  | nil => simp [sumSrc, sumDur]
  | cons c rest ih =>
      have hc := h c (by simp)
      have hrest := ih fun c' hc' => h c' (by simp [hc'])
      have := srcDuration_le_duration s c hc hs1 hs2
      simp only [sumSrc, sumDur, List.map_cons, List.sum_cons] at *
      linarith

/-! ## Concrete fixtures for witnesses and counterexamples -/

lemma normalClip_duration (s : Settings) (start dur : ℚ) :
    (normalClip start dur).duration s = dur := rfl

/-! ## Claim C1 -/

/-- Claim C1 is false on the code: with one 5s main clip, one 10s included
clip tagged `beginning`, and a 10s target, the excess computed by the code counts the
`beginning`-tagged included clip (5 + 10 - 10 = 5 > 0) and trims the whole
main sequence, whereas the excess the claim describes (end-tagged included
only) would be 5 + 0 - 10 ≤ 0 and would trim nothing. -/
theorem c1_counterexample :
    fitTimeline baseSettings [normalClip 0 5] [(normalClip 20 10, "beginning")] 10 = [] ∧
    fitTimelineClaimC1 baseSettings [normalClip 0 5] [(normalClip 20 10, "beginning")] 10 =
      [normalClip 0 5] ∧
    fitTimeline baseSettings [normalClip 0 5] [(normalClip 20 10, "beginning")] 10 ≠
      fitTimelineClaimC1 baseSettings [normalClip 0 5] [(normalClip 20 10, "beginning")] 10 := by
  have hbeq : (("beginning" : String) == "end") = false := by decide
  have h1 : fitTimeline baseSettings [normalClip 0 5] [(normalClip 20 10, "beginning")] 10
      = [] := by
    norm_num [fitTimeline, endIncluded, sumDur, normalClip_duration, trimLoopRev,
      List.filter_cons, hbeq]
  have h2 : fitTimelineClaimC1 baseSettings [normalClip 0 5]
      [(normalClip 20 10, "beginning")] 10 = [normalClip 0 5] := by
    norm_num [fitTimelineClaimC1, endIncluded, sumDur, normalClip_duration, trimLoopRev,
      List.filter_cons, hbeq]
  refine ⟨h1, h2, ?_⟩
  rw [h1, h2]
  simp

/-- Claim C1, amended: during duration fitting the trimming excess is
`mainDuration + (total duration of ALL included descriptors, regardless of
tag) - TargetDuration`; whenever this excess is positive, descriptors are
popped from the END of the main sequence (the final timeline keeps exactly a
prefix `main.take D`), popping continues until the dropped tail covers the
excess or the main sequence is empty (`D = 0`), popping never goes further
than the first point where the excess is covered, and the `end`-tagged
included descriptors are appended untouched. -/
theorem c1_amended (s : Settings) (main : List Clip)
    (included : List (Clip × String)) (target : ℚ) :
    ∃ D, D ≤ main.length ∧
      fitTimeline s main included target = main.take D ++ endIncluded included ∧
      (sumDur s main + sumDur s (included.map fun p => p.1) - target ≤
          sumDur s (main.drop D) ∨ D = 0) ∧
      ∀ j, D < j → j ≤ main.length →
        sumDur s (main.drop j) <
          sumDur s main + sumDur s (included.map fun p => p.1) - target :=
  fitTimeline_eq_take s main included target

/-! ## Claim C2 -/

/-- Claim C2: after fitting, either the total source duration of the final
timeline (trimmed main sequence plus the appended `end`-tagged included
descriptors) is at most the target, or trimming exhausted the main sequence —
and in that case the rendered output is clamped to the target by the
unconditional final clamp (`process_video` lines 334-335).  Holds whenever
source spans are nonnegative and `slowmo_speed` is a slow-down factor in
the interval from 0 exclusive to 1 inclusive, so that the source span of a
clip never exceeds the moviepy duration the trimming loop subtracts. -/
theorem c2_post_fitting_invariant (s : Settings) (main : List Clip)
    (included : List (Clip × String)) (target : ℚ)
    (hmain : ∀ c ∈ main, 0 ≤ c.srcDuration)
    (hincl : ∀ p ∈ included, 0 ≤ p.1.srcDuration)
    (hs1 : 0 < s.slowmo_speed) (hs2 : s.slowmo_speed ≤ 1) :
    sumSrc (fitTimeline s main included target) ≤ target ∨
      (fitTimeline s main included target = endIncluded included ∧
        ∀ rendered, target < rendered → clampDuration rendered target = target) := by
  obtain ⟨D, hD, heq, hstop, hmin⟩ := fitTimeline_eq_take s main included target
  rcases hstop with h1 | h1
  · left
    have hmem : ∀ c ∈ main.take D ++ endIncluded included, 0 ≤ c.srcDuration := by
      intro c hcmem
      rcases List.mem_append.mp hcmem with hm | hm
      · exact hmain c (List.take_subset D main hm)
      · obtain ⟨p, hpfil, hpc⟩ := List.mem_map.mp hm
        rw [← hpc]
        exact hincl p (List.filter_subset' included hpfil)
    have hsrc := sumSrc_le_sumDur s (main.take D ++ endIncluded included) hmem hs1 hs2
    have hsplit := sumDur_take_add_sumDur_drop s main D
    have hfil := sumDur_endIncluded_le s included fun p hp =>
      duration_nonneg s p.1 (hincl p hp) hs1
    rw [heq]
    rw [sumDur_append] at hsrc
    linarith
  · right
    constructor
    · rw [heq, h1]
      simp
    · intro rendered hr
      simp [clampDuration, hr]

/-- Witness for claim C2 at a concrete input. -/
theorem c2_post_fitting_invariant_witness :
    sumSrc (fitTimeline baseSettings [normalClip 0 5] [(normalClip 20 10, "end")] 12) ≤ 12 ∨
      (fitTimeline baseSettings [normalClip 0 5] [(normalClip 20 10, "end")] 12 =
          endIncluded [(normalClip 20 10, "end")] ∧
        ∀ rendered, (12:ℚ) < rendered → clampDuration rendered 12 = 12) :=
  c2_post_fitting_invariant baseSettings [normalClip 0 5] [(normalClip 20 10, "end")] 12
    (by intro c hc; simp [normalClip] at hc; rw [hc]; norm_num)
    (by intro p hp; simp [normalClip] at hp; rw [hp]; norm_num)
    (by norm_num [baseSettings]) (by norm_num [baseSettings])

/-! ## Claim C3 -/

/-- Claim C3 is false on the code in both respects: a configuration whose
effect probabilities sum to 1.005 (within 0.01 of 1.0) is rejected, because
the default tolerance of np.isclose is about 1e-5 rather than 0.01, and the
rejection event comes only after both media files were opened and the video
probed for quality. -/
theorem c3_counterexample :
    |closeButRejectedSettings.effect_probs.slowmo + closeButRejectedSettings.effect_probs.freeze
        + closeButRejectedSettings.effect_probs.normal - 1| ≤ 1/100 ∧
    |closeButRejectedSettings.segment_dist.beginning + closeButRejectedSettings.segment_dist.middle
        + closeButRejectedSettings.segment_dist.end_ - 1| ≤ 1/100 ∧
    validate_settings closeButRejectedSettings = false ∧
    processTrace closeButRejectedSettings =
      [.openVideo, .openAudio, .analyzeQuality, .configError] := by
  have habs : |(1:ℚ)/200| = 1/200 := by
    rw [abs_of_pos]
    norm_num
  refine ⟨by norm_num [closeButRejectedSettings, baseSettings, habs], ?_, ?_, ?_⟩
  · norm_num [closeButRejectedSettings, baseSettings]
  · norm_num [closeButRejectedSettings, baseSettings, validate_settings, npIsClose, habs]
  · norm_num [processTrace, closeButRejectedSettings, baseSettings, validate_settings,
      npIsClose, habs]

/-- Claim C3, amended: `validate_settings` accepts exactly when both
probability sums are within the numpy default isclose tolerance
`1e-8 + 1e-5 * |1.0|` of 1.0 — not within 0.01 — and the check runs only
after the video and audio files are opened and the video probed for its
quality, so a failing configuration is rejected after media was touched,
though still before any sampling. -/
theorem c3_amended (s : Settings) :
    (validate_settings s = true ↔
      |s.effect_probs.slowmo + s.effect_probs.freeze + s.effect_probs.normal - 1| ≤
          1 / 100000000 + 1 / 100000 ∧
      |s.segment_dist.beginning + s.segment_dist.middle + s.segment_dist.end_ - 1| ≤
          1 / 100000000 + 1 / 100000) ∧
    processTrace s =
      [.openVideo, .openAudio, .analyzeQuality] ++
        (if validate_settings s then [.createSegments] else [.configError]) ∧
    (PEvent.configError ∈ processTrace s ↔ validate_settings s = false) ∧
    (processTrace s).take 3 = [.openVideo, .openAudio, .analyzeQuality] := by
  refine ⟨?_, rfl, ?_, rfl⟩
  · simp [validate_settings, npIsClose]
  · unfold processTrace
    cases hv : validate_settings s <;> simp

/-! ## Claim C7 -/

/-- Claim C7: in an uncancelled run a candidate `(start, duration)` yields no
descriptor iff some probe time `start + k * 0.5` (k = 0, 1, ..., staying
below `start + duration`) lies in some excluded range, inclusive of both
endpoints; rejection is all-or-nothing — when accepted, the produced
descriptor keeps exactly the start and source span of the candidate. -/
theorem c7_exclusion_rejection (g : ℕ → ℚ) (s : Settings) (start dur : ℚ) (i : ℕ) :
    ((create_random_effect_clip g s start dur i).1 = none ↔
      ∃ t ∈ probeTimes start dur, ∃ r ∈ s.excluded_timestamps, r.1 ≤ t ∧ t ≤ r.2.1) ∧
    ((create_random_effect_clip g s start dur i).1 = none ∨
      (create_random_effect_clip g s start dur i).1 = some (assignEffect g s start dur i).1) ∧
    (assignEffect g s start dur i).1.start = start ∧
    (assignEffect g s start dur i).1.srcDuration = dur := by
  have hiff : ((probeTimes start dur).any
        (fun t => is_timestamp_excluded t s.excluded_timestamps) = true) ↔
      ∃ t ∈ probeTimes start dur, ∃ r ∈ s.excluded_timestamps, r.1 ≤ t ∧ t ≤ r.2.1 := by
    simp [List.any_eq_true, is_timestamp_excluded]
  refine ⟨?_, ?_, assignEffect_start g s start dur i⟩
  · unfold create_random_effect_clip
    by_cases h : (probeTimes start dur).any
        (fun t => is_timestamp_excluded t s.excluded_timestamps) = true
    · rw [if_pos h]
      exact iff_of_true rfl (hiff.mp h)
    · rw [if_neg h]
      exact iff_of_false (by simp) fun hex => h (hiff.mpr hex)
  · rcases create_random_effect_clip_cases g s start dur i with h | h
    · exact Or.inl (congrArg Prod.fst h)
    · exact Or.inr (congrArg Prod.fst h)

/-! ## Claim C8 -/

/-- Claim C8: the zone plan is a pure function of the source duration — the
End-main zone starts at `duration - 300` when `duration ≤ 5400`, at
`duration - 480` when `5400 < duration ≤ 7200`, at `duration - 600` when
`duration > 7200`, and the tail window is always
`[duration - 10, duration - 0.5)`. -/
theorem c8_zone_plan (d : ℚ) :
    get_end_segment d =
      (if d ≤ 5400 then d - 300 else if d ≤ 7200 then d - 480 else d - 600,
        d - 10, d - 1/2) := by
  unfold get_end_segment
  have h1 : d / 60 ≤ 90 ↔ d ≤ 5400 := by
    rw [div_le_iff₀ (by norm_num : (0:ℚ) < 60)]
    norm_num
  have h2 : d / 60 ≤ 120 ↔ d ≤ 7200 := by
    rw [div_le_iff₀ (by norm_num : (0:ℚ) < 60)]
    norm_num
  simp only [h1, h2]

/-! ## Claim C4 -/

/-- Every clip of `create_section_clips` lies inside the requested section. -/
lemma create_section_clips_mem (g : ℕ → ℚ) (s : Settings) (a b : ℚ) (n fuel i : ℕ)
    (c : Clip) (hg : ∀ k, 0 ≤ g k ∧ g k ≤ 1) (hab : a ≤ b)
    (hc : c ∈ (create_section_clips g s a b n fuel i).clips) :
    a ≤ c.start ∧ c.start < b ∧ 2 ≤ c.srcDuration ∧ c.start + c.srcDuration ≤ b := by
  have hstep : (0:ℚ) ≤ (b - a) / ((max 1 (min n (floorNat ((b - a) / 2))) : ℕ) : ℚ) :=
    div_nonneg (by linarith) (Nat.cast_nonneg _)
  exact sectionLoop_mem g s b _ hg hstep fuel a i c hc

/-- For sources of at least 300 seconds the End-main zone is well-placed. -/
lemma get_end_segment_bounds (d : ℚ) (hd : 300 ≤ d) :
    0 ≤ (get_end_segment d).1 ∧ (get_end_segment d).1 ≤ d - 10 := by
  unfold get_end_segment
  dsimp only
  split_ifs with h1 h2 <;> constructor <;> linarith

/-- Claim C4 is false as stated (for every source duration > 0): for a
100-second source the End-main zone starts at `100 - 300 = -200` and the
sampler emits a segment with negative start, under the all-zero draw stream
and a valid configuration. -/
theorem c4_counterexample :
    ((endMainClips zeroDraws baseSettings 100 3 5 0).clips.any
        fun c => decide (c.start < 0)) = true ∧
    (endMainClips zeroDraws baseSettings 100 3 5 0).completed = true ∧
    validate_settings baseSettings = true := by
  refine ⟨?_, ?_, by norm_num [validate_settings, npIsClose, baseSettings]⟩ <;>
    norm_num [endMainClips, create_section_clips, sectionLoop, candidateClips,
      create_random_effect_clip, assignEffect, chooseEffect, probeTimes,
      is_timestamp_excluded, get_end_segment, floorNat, zeroDraws, baseSettings,
      repeatClips, randint1]

/-- Claim C4, amended: whenever the source duration is at least 300 seconds
(so the End-main zone start `duration - lookback` is nonnegative), every
segment produced by any of the three zone sampling calls of `process_video`
satisfies `0 ≤ start` and `start + duration ≤ sourceDuration`, for every draw
sequence.  For shorter sources the End-main zone start is negative and the
property fails. -/
theorem c4_amended (g : ℕ → ℚ) (s : Settings) (d target : ℚ) (fuel i : ℕ)
    (hg : ∀ k, 0 ≤ g k ∧ g k ≤ 1) (hd : 300 ≤ d) :
    ((beginningClips g s d target fuel i).clips.all
        fun c => decide (0 ≤ c.start ∧ c.start + c.srcDuration ≤ d)) = true ∧
    ((middleClips g s d target fuel i).clips.all
        fun c => decide (0 ≤ c.start ∧ c.start + c.srcDuration ≤ d)) = true ∧
    ((endMainClips g s d target fuel i).clips.all
        fun c => decide (0 ≤ c.start ∧ c.start + c.srcDuration ≤ d)) = true := by
  obtain ⟨hge0, hged⟩ := get_end_segment_bounds d hd
  have h21 : (get_end_segment d).2.1 = d - 10 := rfl
  refine ⟨?_, ?_, ?_⟩ <;> simp only [List.all_eq_true, decide_eq_true_eq] <;> intro c hc
  · obtain ⟨ha, hb, h2, hend⟩ := create_section_clips_mem g s 0 (33/100 * d) _ fuel i c hg
      (by linarith) hc
    exact ⟨ha, by linarith⟩
  · obtain ⟨ha, hb, h2, hend⟩ := create_section_clips_mem g s (33/100 * d) (66/100 * d) _
      fuel i c hg (by linarith) hc
    exact ⟨by linarith, by linarith⟩
  · obtain ⟨ha, hb, h2, hend⟩ := create_section_clips_mem g s (get_end_segment d).1
      (get_end_segment d).2.1 _ fuel i c hg (by rw [h21]; linarith) hc
    rw [h21] at hend
    exact ⟨by linarith, by linarith⟩

/-- Witness for the amended claim C4 at a concrete input. -/
theorem c4_amended_witness :
    ((beginningClips zeroDraws baseSettings 600 60 5 0).clips.all
        fun c => decide (0 ≤ c.start ∧ c.start + c.srcDuration ≤ 600)) = true ∧
    ((middleClips zeroDraws baseSettings 600 60 5 0).clips.all
        fun c => decide (0 ≤ c.start ∧ c.start + c.srcDuration ≤ 600)) = true ∧
    ((endMainClips zeroDraws baseSettings 600 60 5 0).clips.all
        fun c => decide (0 ≤ c.start ∧ c.start + c.srcDuration ≤ 600)) = true :=
  c4_amended zeroDraws baseSettings 600 60 5 0
    (fun _ => ⟨le_refl 0, by norm_num [zeroDraws]⟩) (by norm_num)

/-! ## Claim C10 -/

/-- Claim C10: for every zone with `zoneStart ≤ zoneEnd` and every draw
sequence, the sampling loop terminates — `2 * actualCount + 1` iterations
always suffice to reach an exit condition (each iteration advances the current
time by at least `0.8 * step`), and a zero-length zone exits immediately with
no clips. -/
theorem c10_termination (g : ℕ → ℚ) (s : Settings) (a b : ℚ) (n i : ℕ)
    (hg : ∀ k, 0 ≤ g k) (hab : a ≤ b) :
    (∀ fuel, 2 * max 1 (min n (floorNat ((b - a) / 2))) + 1 ≤ fuel →
      (create_section_clips g s a b n fuel i).completed = true) ∧
    (a = b → (create_section_clips g s a b n 1 i).completed = true ∧
      (create_section_clips g s a b n 1 i).clips = []) := by
  constructor
  · intro fuel hfuel
    obtain ⟨m, rfl⟩ : ∃ m, fuel = m + 1 := ⟨fuel - 1, by omega⟩
    have hac1 : 1 ≤ max 1 (min n (floorNat ((b - a) / 2))) := Nat.le_max_left 1 _
    have hacQ : (0:ℚ) < ((max 1 (min n (floorNat ((b - a) / 2))) : ℕ) : ℚ) := by
      exact_mod_cast Nat.lt_of_lt_of_le Nat.zero_lt_one hac1
    have hstep : (0:ℚ) ≤ (b - a) / ((max 1 (min n (floorNat ((b - a) / 2))) : ℕ) : ℚ) :=
      div_nonneg (by linarith) (le_of_lt hacQ)
    apply sectionLoop_completed g s b _ hg hstep m a i
    have hcancel : (b - a) / ((max 1 (min n (floorNat ((b - a) / 2))) : ℕ) : ℚ) *
        ((max 1 (min n (floorNat ((b - a) / 2))) : ℕ) : ℚ) = b - a :=
      div_mul_cancel₀ _ (ne_of_gt hacQ)
    have hm : 2 * max 1 (min n (floorNat ((b - a) / 2))) ≤ m := by omega
    have hmc : 2 * ((max 1 (min n (floorNat ((b - a) / 2))) : ℕ) : ℚ) ≤ (m : ℚ) := by
      push_cast
      exact_mod_cast hm
    have hkey : 0 ≤ (b - a) / ((max 1 (min n (floorNat ((b - a) / 2))) : ℕ) : ℚ) *
        ((m : ℚ) - 2 * ((max 1 (min n (floorNat ((b - a) / 2))) : ℕ) : ℚ)) :=
      mul_nonneg hstep (by linarith)
    nlinarith [sub_nonneg.mpr hab]
  · intro hab'
    subst hab'
    constructor <;> simp [create_section_clips, sectionLoop, lt_irrefl]

/-- Witness for claim C10 at a concrete input. -/
theorem c10_termination_witness :
    (create_section_clips zeroDraws baseSettings 0 10 3 7 0).completed = true := by
  have hfloor : floorNat ((10 - 0) / 2) = 5 := by
    norm_num [floorNat]
    decide
  exact (c10_termination zeroDraws baseSettings 0 10 3 0 (fun _ => le_refl 0)
    (by norm_num)).1 7 (by rw [hfloor]; decide)

/-! ## Claim C6 -/

/-- Claim C6: the sampler uses
`actualCount = max(1, min(targetSegmentCount, floor(zoneLength / 2)))` and
`step = zoneLength / actualCount`; the loop returns immediately once the
remaining time is below 2, and otherwise performs an iteration that draws a
candidate duration in `[2, min(4, zoneEnd - currentTime)]` and advances the
current time by `step * u` with `u ∈ [0.8, 1.2]` — the same advance equation
whether the candidate was accepted or rejected. -/
theorem c6_sampler_algorithm (g : ℕ → ℚ) (s : Settings) (a b : ℚ) (n fuel i : ℕ)
    (hg : ∀ k, 0 ≤ g k ∧ g k ≤ 1) :
    create_section_clips g s a b n fuel i =
      sectionLoop g s b
        ((b - a) / ((max 1 (min n (floorNat ((b - a) / 2))) : ℕ) : ℚ)) fuel a i ∧
    (∀ (fuel' : ℕ) (t : ℚ) (i' : ℕ) (step : ℚ), b - t < 2 →
      sectionLoop g s b step (fuel' + 1) t i' = ⟨[], i', true⟩) ∧
    (∀ (fuel' : ℕ) (t : ℚ) (i' : ℕ) (step : ℚ), 2 ≤ b - t →
      ∃ dur u, 2 ≤ dur ∧ dur ≤ min 4 (b - t) ∧ 4/5 ≤ u ∧ u ≤ 6/5 ∧
        sectionLoop g s b step (fuel' + 1) t i' =
          ⟨(candidateClips g s t dur (i' + 1)).1 ++
              (sectionLoop g s b step fuel' (t + step * u)
                ((candidateClips g s t dur (i' + 1)).2 + 1)).clips,
            (sectionLoop g s b step fuel' (t + step * u)
              ((candidateClips g s t dur (i' + 1)).2 + 1)).nextIdx,
            (sectionLoop g s b step fuel' (t + step * u)
              ((candidateClips g s t dur (i' + 1)).2 + 1)).completed⟩) := by
  refine ⟨rfl, ?_, ?_⟩
  · intro fuel' t i' step h
    rw [sectionLoop]
    by_cases h1 : t < b
    · rw [if_pos h1, if_pos h]
    · rw [if_neg h1]
  · intro fuel' t i' step h
    have hgi := hg i'
    have hmin2 : (2:ℚ) ≤ min 4 (b - t) := le_min (by norm_num) h
    refine ⟨2 + (min 4 (b - t) - 2) * g i',
      4/5 + (6/5 - 4/5) * g (candidateClips g s t (2 + (min 4 (b - t) - 2) * g i') (i' + 1)).2,
      by nlinarith, by nlinarith, ?_, ?_, ?_⟩
    · have := (hg (candidateClips g s t (2 + (min 4 (b - t) - 2) * g i') (i' + 1)).2).1
      linarith
    · have := (hg (candidateClips g s t (2 + (min 4 (b - t) - 2) * g i') (i' + 1)).2).2
      linarith
    · rw [sectionLoop]
      rw [if_pos (by linarith : t < b), if_neg (by linarith : ¬(b - t < 2))]

/-- Witness for claim C6, exercising the stop condition at a concrete input. -/
theorem c6_sampler_algorithm_witness :
    sectionLoop zeroDraws baseSettings 10 1 (5 + 1) 9 0 = ⟨[], 0, true⟩ :=
  (c6_sampler_algorithm zeroDraws baseSettings 0 10 3 1 0
      (fun _ => ⟨le_refl 0, by norm_num [zeroDraws]⟩)).2.1 5 9 0 1 (by norm_num)

/-! ## Claim C5 -/

/-- Claim C5 is false in its "repeat policy applies" part: with repeat
probability 1, the sampled-segment pipeline produces the original clip plus a
repeat for an accepted candidate window (2 descriptors), while the
included-range pipeline produces exactly one descriptor for the same window —
`create_included_segment_clips` has no repeat block. -/
theorem c5_counterexample :
    (create_included_segment_clips zeroDraws alwaysRepeatSettings
        [(0, 4, "end")] 0).1.length = 1 ∧
    (candidateClips zeroDraws alwaysRepeatSettings 0 4 0).1.length = 2 ∧
    alwaysRepeatSettings.repeat_.probability = 1 := by
  refine ⟨?_, ?_, rfl⟩ <;>
    norm_num [create_included_segment_clips, candidateClips, create_random_effect_clip,
      assignEffect, chooseEffect, repeatClips, randint1, probeTimes, is_timestamp_excluded,
      normalizePos, zeroDraws, alwaysRepeatSettings, baseSettings]

/-- Claim C5, amended: every included range with positive span yields exactly
ONE descriptor, via the same weighted effect draw and fade transition that
sampled segments receive (`assignEffect`, which is also what
`create_random_effect_clip` applies whenever no probe point is excluded) —
but the repeat policy does NOT apply to included ranges; and regardless of the
recorded placement tag, only descriptors of `end`-tagged ranges appear in the
final timeline, appended after the trimmed main prefix, so `beginning`- and
`middle`-tagged descriptors are computed but absent. -/
theorem c5_amended (g : ℕ → ℚ) (s : Settings) :
    (∀ (st en : ℚ) (pos : String) (rest : List (ℚ × ℚ × String)) (i : ℕ), 0 < en - st →
      create_included_segment_clips g s ((st, en, pos) :: rest) i =
        (((assignEffect g s st (en - st) i).1, normalizePos pos) ::
            (create_included_segment_clips g s rest (assignEffect g s st (en - st) i).2).1,
          (create_included_segment_clips g s rest (assignEffect g s st (en - st) i).2).2)) ∧
    (∀ (start dur : ℚ) (i : ℕ),
      ((probeTimes start dur).any
          fun t => is_timestamp_excluded t s.excluded_timestamps) = false →
      create_random_effect_clip g s start dur i =
        (some (assignEffect g s start dur i).1, (assignEffect g s start dur i).2)) ∧
    (∀ (ts : List (ℚ × ℚ × String)) (i : ℕ),
      (create_included_segment_clips g s ts i).1.length ≤ ts.length) ∧
    (∀ (main : List Clip) (included : List (Clip × String)) (target : ℚ),
      ∃ D, fitTimeline s main included target = main.take D ++ endIncluded included) := by
  refine ⟨?_, ?_, ?_, ?_⟩
  · intro st en pos rest i h
    rw [create_included_segment_clips]
    rw [if_neg (by linarith : ¬(en - st ≤ 0))]
  · intro start dur i h
    unfold create_random_effect_clip
    rw [if_neg (by simp [h])]
  · intro ts
    induction ts with
    | nil =>
        intro i
        simp [create_included_segment_clips]
    | cons hd tl ih =>
        intro i
        obtain ⟨st, en, pos⟩ := hd
        rw [create_included_segment_clips]
        by_cases h : en - st ≤ 0
        · rw [if_pos h]
          exact le_trans (ih i) (by simp)
        · rw [if_neg h]
          simpa using ih (assignEffect g s st (en - st) i).2
  · intro main included target
    obtain ⟨D, _, heq, _, _⟩ := fitTimeline_eq_take s main included target
    exact ⟨D, heq⟩

/-- Witness for the amended claim C5 at a concrete input. -/
theorem c5_amended_witness :
    create_included_segment_clips zeroDraws baseSettings [((0:ℚ), (4:ℚ), "middle")] 0 =
      (((assignEffect zeroDraws baseSettings 0 (4 - 0) 0).1, normalizePos "middle") ::
          (create_included_segment_clips zeroDraws baseSettings []
            (assignEffect zeroDraws baseSettings 0 (4 - 0) 0).2).1,
        (create_included_segment_clips zeroDraws baseSettings []
          (assignEffect zeroDraws baseSettings 0 (4 - 0) 0).2).2) :=
  (c5_amended zeroDraws baseSettings).1 0 4 "middle" [] 0 (by norm_num)

/-! ## Claim C9 -/

/-- Claim C9 is false on the code: a configuration carrying a malformed
included range passes `validate_settings` — no configuration error at load —
the range is silently skipped during included-clip creation, and an unknown
placement tag is silently reinterpreted as `end`. -/
theorem c9_counterexample :
    validate_settings malformedRangeSettings = true ∧
    (create_included_segment_clips zeroDraws malformedRangeSettings
        malformedRangeSettings.include_timestamps 0).1 = [] ∧
    ((create_included_segment_clips zeroDraws baseSettings
        [((1:ℚ), (2:ℚ), "sideways")] 0).1.map fun p => p.2) = ["end"] := by
  refine ⟨?_, ?_, ?_⟩
  · norm_num [validate_settings, npIsClose, malformedRangeSettings, baseSettings]
  · norm_num [create_included_segment_clips, malformedRangeSettings, baseSettings]
  · have hpos : normalizePos "sideways" = "end" := by
      unfold normalizePos
      rw [if_neg (by decide)]
    norm_num [create_included_segment_clips, hpos]

/-- Claim C9, amended: malformed ranges are NOT rejected at configuration
load — `validate_settings` reads only the probability sums (changing the
range lists never changes its verdict); an included range with
`end ≤ start` is silently skipped by `create_included_segment_clips`, and a
placement tag outside {beginning, middle, end} is silently reinterpreted as
`end`. -/
theorem c9_amended (g : ℕ → ℚ) (s : Settings) :
    (∀ (ex incl : List (ℚ × ℚ × String)),
      validate_settings { s with excluded_timestamps := ex, include_timestamps := incl } =
        validate_settings s) ∧
    (∀ (st en : ℚ) (pos : String) (rest : List (ℚ × ℚ × String)) (i : ℕ), en ≤ st →
      create_included_segment_clips g s ((st, en, pos) :: rest) i =
        create_included_segment_clips g s rest i) ∧
    (∀ (st en : ℚ) (pos : String) (rest : List (ℚ × ℚ × String)) (i : ℕ),
      pos ≠ "beginning" → pos ≠ "middle" → pos ≠ "end" →
      create_included_segment_clips g s ((st, en, pos) :: rest) i =
        create_included_segment_clips g s ((st, en, "end") :: rest) i) := by
  refine ⟨fun ex incl => rfl, ?_, ?_⟩
  · intro st en pos rest i h
    rw [create_included_segment_clips]
    rw [if_pos (by linarith : en - st ≤ 0)]
  · intro st en pos rest i h1 h2 h3
    have hn1 : normalizePos pos = "end" := by
      simp [normalizePos, h1, h2, h3]
    have hn2 : normalizePos "end" = "end" := by
      simp [normalizePos]
    rw [create_included_segment_clips, create_included_segment_clips, hn1, hn2]

/-- Witness for the amended claim C9 at a concrete input. -/
theorem c9_amended_witness :
    create_included_segment_clips zeroDraws baseSettings
        [((5:ℚ), (3:ℚ), "beginning")] 0 =
      create_included_segment_clips zeroDraws baseSettings [] 0 :=
  (c9_amended zeroDraws baseSettings).2.1 5 3 "beginning" [] 0 (by norm_num)

end MovieCap
